import Mathlib

/-!
Verification of the `ipp.rs` IPP wire-format library.

The repository's `src/` tree contains `lib.rs` (header, error type, stream
helpers), `client.rs` (HTTP client glue) and `request.rs` (request
envelope).  The codec modules referenced by the crate root (`value.rs`,
`parser.rs`, `attribute.rs`, `consts/*`) are not part of the provided
sources; where a claim depends on them the corresponding definitions are
modelled from the specification and carry a doc comment saying so.

Shallow-embedding conventions:
* Rust `u8`/`u16`/`u32` values are `Nat`s; where truncation matters the
  theorems carry explicit range hypotheses.
* Rust `i32` is `Int` with explicit two's-complement conversion.
* A Rust `String`/`&str` is represented by the list of its UTF-8 bytes
  (`List Nat`), a byte stream by a `List Nat`, and fallible operations
  return `Except`.
-/

/-- Big-endian encoding of a `u16` field value (2 bytes). -/
def be2 (n : Nat) : List Nat := [n / 256 % 256, n % 256]

/-- Big-endian encoding of a `u32` field value (4 bytes). -/
def be4 (n : Nat) : List Nat :=
  [n / 16777216 % 256, n / 65536 % 256, n / 256 % 256, n % 256]

/-- Two's-complement image of a Rust `i32` as the `u32` that appears on the
wire (the `i32` is written as 4 big-endian bytes). -/
def intToU32 (i : Int) : Nat := (i % 4294967296).toNat

/-- Reading a `u32` back as a Rust `i32` (two's complement). -/
def u32ToInt (n : Nat) : Int :=
  if n < 2147483648 then (n : Int) else (n : Int) - 4294967296

/-- Every byte of the list is an actual octet (fits in a `u8`). -/
def allBytes (bs : List Nat) : Bool := bs.all (fun b => b < 256)

/-- A UTF-8 continuation byte (`0x80 ..= 0xBF`). -/
def contByte (b : Nat) : Bool := 128 ≤ b && b < 192

/-- UTF-8 validity of a byte sequence (RFC 3629 table, as enforced by Rust's
`str::from_utf8`). -/
def validUtf8 : List Nat → Bool
  | [] => true
  | b :: rest =>
    if b < 128 then validUtf8 rest
    else if 194 ≤ b && b ≤ 223 then
      match rest with
      | b2 :: r => contByte b2 && validUtf8 r
      | [] => false
    else if b = 224 then
      match rest with
      | b2 :: b3 :: r => (160 ≤ b2 && b2 < 192) && contByte b3 && validUtf8 r
      | _ => false
    else if (225 ≤ b && b ≤ 236) || (238 ≤ b && b ≤ 239) then
      match rest with
      | b2 :: b3 :: r => contByte b2 && contByte b3 && validUtf8 r
      | _ => false
    else if b = 237 then
      match rest with
      | b2 :: b3 :: r => (128 ≤ b2 && b2 < 160) && contByte b3 && validUtf8 r
      | _ => false
    else if b = 240 then
      match rest with
      | b2 :: b3 :: b4 :: r =>
        (144 ≤ b2 && b2 < 192) && contByte b3 && contByte b4 && validUtf8 r
      | _ => false
    else if 241 ≤ b && b ≤ 243 then
      match rest with
      | b2 :: b3 :: b4 :: r =>
        contByte b2 && contByte b3 && contByte b4 && validUtf8 r
      | _ => false
    else if b = 244 then
      match rest with
      | b2 :: b3 :: b4 :: r =>
        (128 ≤ b2 && b2 < 144) && contByte b3 && contByte b4 && validUtf8 r
      | _ => false
    else false

/-- The code points produced by Rust's `String::from_utf8_lossy`: valid
sequences decode to their scalar value, each maximal invalid subpart is
replaced by U+FFFD (65533).  The result is the list of code points of the
produced `String`. -/
def utf8Lossy : List Nat → List Nat
  | [] => []
  | b :: rest =>
    if b < 128 then b :: utf8Lossy rest
    else if 194 ≤ b && b ≤ 223 then
      match rest with
      | b2 :: r =>
        if contByte b2 then ((b - 192) * 64 + (b2 - 128)) :: utf8Lossy r
        else 65533 :: utf8Lossy (b2 :: r)
      | [] => [65533]
    else if b = 224 then
      match rest with
      | b2 :: b3 :: r =>
        if 160 ≤ b2 && b2 < 192 then
          if contByte b3 then
            ((b - 224) * 4096 + (b2 - 128) * 64 + (b3 - 128)) :: utf8Lossy r
          else 65533 :: utf8Lossy (b3 :: r)
        else 65533 :: utf8Lossy (b2 :: b3 :: r)
      | [b2] =>
        if 160 ≤ b2 && b2 < 192 then [65533] else 65533 :: utf8Lossy [b2]
      | [] => [65533]
    else if (225 ≤ b && b ≤ 236) || (238 ≤ b && b ≤ 239) then
      match rest with
      | b2 :: b3 :: r =>
        if contByte b2 then
          if contByte b3 then
            ((b - 224) * 4096 + (b2 - 128) * 64 + (b3 - 128)) :: utf8Lossy r
          else 65533 :: utf8Lossy (b3 :: r)
        else 65533 :: utf8Lossy (b2 :: b3 :: r)
      | [b2] => if contByte b2 then [65533] else 65533 :: utf8Lossy [b2]
      | [] => [65533]
    else if b = 237 then
      match rest with
      | b2 :: b3 :: r =>
        if 128 ≤ b2 && b2 < 160 then
          if contByte b3 then
            ((b - 224) * 4096 + (b2 - 128) * 64 + (b3 - 128)) :: utf8Lossy r
          else 65533 :: utf8Lossy (b3 :: r)
        else 65533 :: utf8Lossy (b2 :: b3 :: r)
      | [b2] =>
        if 128 ≤ b2 && b2 < 160 then [65533] else 65533 :: utf8Lossy [b2]
      | [] => [65533]
    else if b = 240 then
      match rest with
      | b2 :: b3 :: b4 :: r =>
        if 144 ≤ b2 && b2 < 192 then
          if contByte b3 then
            if contByte b4 then
              ((b - 240) * 262144 + (b2 - 128) * 4096 + (b3 - 128) * 64 +
                (b4 - 128)) :: utf8Lossy r
            else 65533 :: utf8Lossy (b4 :: r)
          else 65533 :: utf8Lossy (b3 :: b4 :: r)
        else 65533 :: utf8Lossy (b2 :: b3 :: b4 :: r)
      | [b2, b3] =>
        if 144 ≤ b2 && b2 < 192 then
          if contByte b3 then [65533] else 65533 :: utf8Lossy [b3]
        else 65533 :: utf8Lossy [b2, b3]
      | [b2] =>
        if 144 ≤ b2 && b2 < 192 then [65533] else 65533 :: utf8Lossy [b2]
      | [] => [65533]
    else if 241 ≤ b && b ≤ 243 then
      match rest with
      | b2 :: b3 :: b4 :: r =>
        if contByte b2 then
          if contByte b3 then
            if contByte b4 then
              ((b - 240) * 262144 + (b2 - 128) * 4096 + (b3 - 128) * 64 +
                (b4 - 128)) :: utf8Lossy r
            else 65533 :: utf8Lossy (b4 :: r)
          else 65533 :: utf8Lossy (b3 :: b4 :: r)
        else 65533 :: utf8Lossy (b2 :: b3 :: b4 :: r)
      | [b2, b3] =>
        if contByte b2 then
          if contByte b3 then [65533] else 65533 :: utf8Lossy [b3]
        else 65533 :: utf8Lossy [b2, b3]
      | [b2] => if contByte b2 then [65533] else 65533 :: utf8Lossy [b2]
      | [] => [65533]
    else if b = 244 then
      match rest with
      | b2 :: b3 :: b4 :: r =>
        if 128 ≤ b2 && b2 < 144 then
          if contByte b3 then
            if contByte b4 then
              ((b - 240) * 262144 + (b2 - 128) * 4096 + (b3 - 128) * 64 +
                (b4 - 128)) :: utf8Lossy r
            else 65533 :: utf8Lossy (b4 :: r)
          else 65533 :: utf8Lossy (b3 :: b4 :: r)
        else 65533 :: utf8Lossy (b2 :: b3 :: b4 :: r)
      | [b2, b3] =>
        if 128 ≤ b2 && b2 < 144 then
          if contByte b3 then [65533] else 65533 :: utf8Lossy [b3]
        else 65533 :: utf8Lossy [b2, b3]
      | [b2] =>
        if 128 ≤ b2 && b2 < 144 then [65533] else 65533 :: utf8Lossy [b2]
      | [] => [65533]
    else 65533 :: utf8Lossy rest

/-- Modelled from the spec: the codec error taxonomy of section 7.  The
codec modules (`value.rs`, `parser.rs`) are not under `src/`; their error
type is taken from the spec's words.  `StatusError` is excluded here: the
spec states it is not a decode failure (it lives in the client error type
`IppError` below). -/
inductive CodecError where
  | IoError : CodecError
  | MalformedValue : CodecError
  | UnexpectedValueOutsideGroup : CodecError
  | UnknownValueTag : CodecError
  | OversizedPayload : CodecError

/-- Modelled from the spec: the Value tagged union of section 3
(`value.rs` is not under `src/`).  Rust `String` payloads are lists of
UTF-8 bytes, `i32` is `Int`, single bytes are `Nat`. -/
inductive IppValue where
  | Integer (i : Int)
  | Boolean (b : Bool)
  | Enum (i : Int)
  | RangeOfInteger (lo hi : Int)
  | Resolution (crossFeed feed : Int) (units : Nat)
  | DateTime (year month day hour minutes seconds deciseconds : Nat)
      (utcDir utcHours utcMins : Nat)
  | OctetString (bs : List Nat)
  | Charset (s : List Nat)
  | NaturalLanguage (s : List Nat)
  | Uri (s : List Nat)
  | UriScheme (s : List Nat)
  | Keyword (s : List Nat)
  | MimeMediaType (s : List Nat)
  | TextWithoutLanguage (s : List Nat)
  | NameWithoutLanguage (s : List Nat)
  | TextWithLanguage (language text : List Nat)
  | NameWithLanguage (language text : List Nat)
  | ListOf (vs : List IppValue)
  | Unsupported
  | Unknown
  | NoValue
  | Other (tag : Nat) (bs : List Nat)

/-- Modelled from the spec: an Attribute is a named value (section 3;
`attribute.rs` is not under `src/`). -/
structure IppAttribute where
  name : List Nat
  value : IppValue

/-- Modelled from the spec: the AttributeCollection — an ordered mapping
from group delimiter tag to its ordered attribute sequence (section 3). -/
abbrev IppAttributeList := List (Nat × List IppAttribute)

/-- Modelled from the spec: `add` appends the attribute to the group's
ordered bucket, creating the bucket at the end on first use (section 4.2:
no auto-merging at this layer, insertion order preserved). -/
def IppAttributeList.add (c : IppAttributeList) (group : Nat)
    (a : IppAttribute) : IppAttributeList :=
  match c with
  | [] => [(group, [a])]
  | (g, as) :: rest =>
    if g = group then (g, as ++ [a]) :: rest
    else (g, as) :: IppAttributeList.add rest group a

/-- Modelled from the spec: the wire tag of each value variant
(section 6's value-tag table).  `ListOf` is not itself a wire tag: the
encoder destructures it before reaching this function (its result for
`ListOf` is arbitrary and never used). -/
def valueTag : IppValue → Nat
  | .Integer _ => 0x21
  | .Boolean _ => 0x22
  | .Enum _ => 0x23
  | .OctetString _ => 0x30
  | .DateTime _ _ _ _ _ _ _ _ _ _ => 0x31
  | .Resolution _ _ _ => 0x32
  | .RangeOfInteger _ _ => 0x33
  | .TextWithLanguage _ _ => 0x35
  | .NameWithLanguage _ _ => 0x36
  | .TextWithoutLanguage _ => 0x41
  | .NameWithoutLanguage _ => 0x42
  | .Keyword _ => 0x44
  | .Uri _ => 0x45
  | .UriScheme _ => 0x46
  | .Charset _ => 0x47
  | .NaturalLanguage _ => 0x48
  | .MimeMediaType _ => 0x49
  | .Unsupported => 0x10
  | .Unknown => 0x12
  | .NoValue => 0x13
  | .Other t _ => t
  | .ListOf _ => 0

/-- Modelled from the spec: payload bytes of one concrete value (sections
3 and 4.1).  `ListOf` has no payload of its own (the encoder splits it
into per-element entries first); asking for one is a malformed request,
mirroring the spec's rule that `ListOf` is not a wire shape. -/
def valuePayload : IppValue → Except CodecError (List Nat)
  | .Integer i => .ok (be4 (intToU32 i))
  | .Boolean b => .ok [if b then 1 else 0]
  | .Enum i => .ok (be4 (intToU32 i))
  | .RangeOfInteger lo hi => .ok (be4 (intToU32 lo) ++ be4 (intToU32 hi))
  | .Resolution c f u => .ok (be4 (intToU32 c) ++ be4 (intToU32 f) ++ [u])
  | .DateTime y mo d h mi s ds dir oh om =>
    .ok (be2 y ++ [mo, d, h, mi, s, ds, dir, oh, om])
  | .OctetString bs => .ok bs
  | .Charset s => .ok s
  | .NaturalLanguage s => .ok s
  | .Uri s => .ok s
  | .UriScheme s => .ok s
  | .Keyword s => .ok s
  | .MimeMediaType s => .ok s
  | .TextWithoutLanguage s => .ok s
  | .NameWithoutLanguage s => .ok s
  | .TextWithLanguage l t => .ok (be2 l.length ++ l ++ be2 t.length ++ t)
  | .NameWithLanguage l t => .ok (be2 l.length ++ l ++ be2 t.length ++ t)
  | .Unsupported => .ok []
  | .Unknown => .ok []
  | .NoValue => .ok []
  | .Other _ bs => .ok bs
  | .ListOf _ => .error .MalformedValue

/-- Reads a 2-byte big-endian length field from the stream. -/
def read2BE : List Nat → Except CodecError (Nat × List Nat)
  | a :: b :: rest => .ok (a * 256 + b, rest)
  | _ => .error .IoError

/-- Reads exactly `n` bytes from the stream (short read is an I/O error). -/
def readN (n : Nat) (bs : List Nat) : Except CodecError (List Nat × List Nat) :=
  if n ≤ bs.length then .ok (bs.take n, bs.drop n) else .error .IoError

/-- Parses the composite `*WithLanguage` payload: nested length-prefixed
language then length-prefixed text, consuming the payload exactly
(section 3); both sub-fields must be valid UTF-8. -/
def parsePairStrings (p : List Nat) : Except CodecError (List Nat × List Nat) :=
  match read2BE p with
  | .error e => .error e
  | .ok (llen, r1) =>
    match readN llen r1 with
    | .error e => .error e
    | .ok (lang, r2) =>
      match read2BE r2 with
      | .error e => .error e
      | .ok (tlen, r3) =>
        match readN tlen r3 with
        | .error e => .error e
        | .ok (text, r4) =>
          if r4 = [] then
            if validUtf8 lang && validUtf8 text then .ok (lang, text)
            else .error .MalformedValue
          else .error .MalformedValue

/-- Modelled from the spec: `decode(tag, payload)` of section 4.1
(`value.rs` is not under `src/`): dispatch purely on the tag; a payload
whose length does not match the variant's shape is `MalformedValue`, a
string payload that is not valid UTF-8 is `MalformedValue`, and any tag
not otherwise modeled falls through to `Other`, which always succeeds. -/
def decodeValue (tag : Nat) (p : List Nat) : Except CodecError IppValue :=
  if tag = 0x21 then
    match p with
    | [a, b, c, d] =>
      .ok (.Integer (u32ToInt (a * 16777216 + b * 65536 + c * 256 + d)))
    | _ => .error .MalformedValue
  else if tag = 0x22 then
    match p with
    | [b] => .ok (.Boolean (b != 0))
    | _ => .error .MalformedValue
  else if tag = 0x23 then
    match p with
    | [a, b, c, d] =>
      .ok (.Enum (u32ToInt (a * 16777216 + b * 65536 + c * 256 + d)))
    | _ => .error .MalformedValue
  else if tag = 0x30 then .ok (.OctetString p)
  else if tag = 0x31 then
    match p with
    | [y1, y2, mo, d, h, mi, s, ds, dir, oh, om] =>
      .ok (.DateTime (y1 * 256 + y2) mo d h mi s ds dir oh om)
    | _ => .error .MalformedValue
  else if tag = 0x32 then
    match p with
    | [a, b, c, d, e, f, g, h, u] =>
      .ok (.Resolution (u32ToInt (a * 16777216 + b * 65536 + c * 256 + d))
        (u32ToInt (e * 16777216 + f * 65536 + g * 256 + h)) u)
    | _ => .error .MalformedValue
  else if tag = 0x33 then
    match p with
    | [a, b, c, d, e, f, g, h] =>
      .ok (.RangeOfInteger (u32ToInt (a * 16777216 + b * 65536 + c * 256 + d))
        (u32ToInt (e * 16777216 + f * 65536 + g * 256 + h)))
    | _ => .error .MalformedValue
  else if tag = 0x35 then
    match parsePairStrings p with
    | .error e => .error e
    | .ok (l, t) => .ok (.TextWithLanguage l t)
  else if tag = 0x36 then
    match parsePairStrings p with
    | .error e => .error e
    | .ok (l, t) => .ok (.NameWithLanguage l t)
  else if tag = 0x41 then
    if validUtf8 p then .ok (.TextWithoutLanguage p) else .error .MalformedValue
  else if tag = 0x42 then
    if validUtf8 p then .ok (.NameWithoutLanguage p) else .error .MalformedValue
  else if tag = 0x44 then
    if validUtf8 p then .ok (.Keyword p) else .error .MalformedValue
  else if tag = 0x45 then
    if validUtf8 p then .ok (.Uri p) else .error .MalformedValue
  else if tag = 0x46 then
    if validUtf8 p then .ok (.UriScheme p) else .error .MalformedValue
  else if tag = 0x47 then
    if validUtf8 p then .ok (.Charset p) else .error .MalformedValue
  else if tag = 0x48 then
    if validUtf8 p then .ok (.NaturalLanguage p) else .error .MalformedValue
  else if tag = 0x49 then
    if validUtf8 p then .ok (.MimeMediaType p) else .error .MalformedValue
  else if tag = 0x10 then
    if p = [] then .ok .Unsupported else .error .MalformedValue
  else if tag = 0x12 then
    if p = [] then .ok .Unknown else .error .MalformedValue
  else if tag = 0x13 then
    if p = [] then .ok .NoValue else .error .MalformedValue
  else .ok (.Other tag p)

/-- Modelled from the spec: one wire attribute entry — value tag, 2-byte
name length + name, 2-byte value length + value payload (sections 4.4 and
6).  Encoding fails with `OversizedPayload` when the payload exceeds the
16-bit length field's range, rather than truncating (sections 4.1 and 7). -/
def writeEntry (tag : Nat) (name : List Nat) (v : IppValue) :
    Except CodecError (List Nat) :=
  match valuePayload v with
  | .error e => .error e
  | .ok p =>
    if 65536 ≤ p.length then .error .OversizedPayload
    else .ok (tag :: (be2 name.length ++ name ++ be2 p.length ++ p))

/-- Modelled from the spec: the continuation entries of a multi-valued
attribute — each subsequent element is written as tag + zero-length name +
its value (section 4.4). -/
def writeContinuations : List IppValue → Except CodecError (List Nat)
  | [] => .ok []
  | v :: vs =>
    match writeEntry (valueTag v) [] v with
    | .error e => .error e
    | .ok e1 =>
      match writeContinuations vs with
      | .error e => .error e
      | .ok rest => .ok (e1 ++ rest)

/-- Modelled from the spec: encoding of one attribute (section 4.4) — a
`ListOf` is split into a full first entry followed by zero-length-name
continuation entries; any other value is one full entry.  An empty
`ListOf` has no `values[0]` and cannot be encoded. -/
def writeAttribute (a : IppAttribute) : Except CodecError (List Nat) :=
  match a.value with
  | .ListOf [] => .error .MalformedValue
  | .ListOf (v :: vs) =>
    match writeEntry (valueTag v) a.name v with
    | .error e => .error e
    | .ok e1 =>
      match writeContinuations vs with
      | .error e => .error e
      | .ok rest => .ok (e1 ++ rest)
  | v => writeEntry (valueTag v) a.name v

/-- Modelled from the spec: the attribute sequence of one group, in stored
order (section 4.4 step 2). -/
def writeAttrs : List IppAttribute → Except CodecError (List Nat)
  | [] => .ok []
  | a :: as =>
    match writeAttribute a with
    | .error e => .error e
    | .ok ab =>
      match writeAttrs as with
      | .error e => .error e
      | .ok rest => .ok (ab ++ rest)

/-- Modelled from the spec: one group section — its delimiter tag once,
then its attributes (section 4.4 step 2). -/
def writeGroup (g : Nat × List IppAttribute) : Except CodecError (List Nat) :=
  match writeAttrs g.2 with
  | .error e => .error e
  | .ok body => .ok (g.1 :: body)

/-- Modelled from the spec: all group sections in the collection's stored
order (section 4.4 step 2). -/
def writeGroups : IppAttributeList → Except CodecError (List Nat)
  | [] => .ok []
  | g :: gs =>
    match writeGroup g with
    | .error e => .error e
    | .ok gb =>
      match writeGroups gs with
      | .error e => .error e
      | .ok rest => .ok (gb ++ rest)

/-- Modelled from the spec: `IppAttributeList::write` — the full attribute
section: every group, then the end-of-attributes marker 0x03 (section 4.4
steps 2-3; `attribute.rs` is not under `src/`). -/
def IppAttributeList.write (c : IppAttributeList) : Except CodecError (List Nat) :=
  match writeGroups c with
  | .error e => .error e
  | .ok bs => .ok (bs ++ [3])

/-- The delimiter tags that establish a current group (section 6;
end-of-attributes 0x03 is handled separately). -/
def isDelimiterByte (t : Nat) : Bool :=
  t = 1 || t = 2 || t = 4 || t = 5 || t = 6 || t = 7

/-- Closes the current group, appending it to the finished-group list. -/
def pushCur (acc : IppAttributeList) (cur : Option (Nat × List IppAttribute)) :
    IppAttributeList :=
  match cur with
  | none => acc
  | some g => acc ++ [g]

/-- Modelled from the spec: the decoder's continuation-rule fold
(section 4.3c) — if the previous attribute's value is not already a
`ListOf`, wrap it into a one-element `ListOf` first, then append. -/
def foldValue (old v : IppValue) : IppValue :=
  match old with
  | .ListOf vs => .ListOf (vs ++ [v])
  | w => .ListOf [w, v]

/-- Folds a continuation value into the most recently added attribute of
the current group; a continuation with no previous attribute in the group
is a framing violation (the spec defines continuation only as "an
additional value for the previous attribute"). -/
def updateLast (as : List IppAttribute) (v : IppValue) :
    Except CodecError (List IppAttribute) :=
  match as with
  | [] => .error .MalformedValue
  | [a] => .ok [⟨a.name, foldValue a.value v⟩]
  | a :: rest =>
    match updateLast rest v with
    | .error e => .error e
    | .ok rest2 => .ok (a :: rest2)

/-- Reads the frame of one attribute entry after its tag byte: 2-byte name
length, name, 2-byte value length, value payload (section 4.3 steps a-b). -/
def readEntry (bs : List Nat) :
    Except CodecError (List Nat × List Nat × List Nat) :=
  match read2BE bs with
  | .error e => .error e
  | .ok (nlen, r1) =>
    match readN nlen r1 with
    | .error e => .error e
    | .ok (name, r2) =>
      match read2BE r2 with
      | .error e => .error e
      | .ok (vlen, r3) =>
        match readN vlen r3 with
        | .error e => .error e
        | .ok (p, r4) => .ok (name, p, r4)

/-- Modelled from the spec: the decoder's single-pass state machine over
the post-header byte stream (section 4.3; `parser.rs` is not under
`src/`).  `acc` holds the finished groups in order, `cur` the current
group.  The fuel argument bounds the number of loop iterations; every
iteration consumes at least one byte, so fuel exceeding the stream length
never runs out before the stream does (running out of stream or fuel is
the short-read `IoError` of section 4.3 step 4).  Bytes after the 0x03
marker are the trailing payload and are not part of the collection. -/
def parseAttrs : Nat → List Nat → IppAttributeList →
    Option (Nat × List IppAttribute) → Except CodecError IppAttributeList
  | 0, _, _, _ => .error .IoError
  | _ + 1, [], _, _ => .error .IoError
  | fuel + 1, t :: rest, acc, cur =>
    if t = 3 then .ok (pushCur acc cur)
    else if isDelimiterByte t then
      parseAttrs fuel rest (pushCur acc cur) (some (t, []))
    else if t < 16 then .error .UnknownValueTag
    else
      match readEntry rest with
      | .error e => .error e
      | .ok (name, p, rest2) =>
        match cur with
        | none => .error .UnexpectedValueOutsideGroup
        | some (g, as) =>
          match decodeValue t p with
          | .error e => .error e
          | .ok v =>
            if name = [] then
              match updateLast as v with
              | .error e => .error e
              | .ok as2 => parseAttrs fuel rest2 acc (some (g, as2))
            else if validUtf8 name then
              parseAttrs fuel rest2 acc (some (g, as ++ [⟨name, v⟩]))
            else .error .MalformedValue

/-- Modelled from the spec: decoding the attribute section of a byte
stream (the bytes after the 8-byte header), producing the grouped
attribute collection (section 4.3). -/
def decodeAttrs (bytes : List Nat) : Except CodecError IppAttributeList :=
  parseAttrs (bytes.length + 1) bytes [] none

/-- The client error type of `src/lib.rs` (`enum IppError`).  The payloads
carried by `HttpError`/`IOError` are foreign error objects and are dropped;
`RequestError`/`AttributeError` carry a `String` (its UTF-8 bytes here);
`StatusError` carries a `StatusCode`.  `consts/statuscode.rs` is not under
`src/`: a `StatusCode` is represented by its `u16` discriminant (the crate
derives `from_u16` from the discriminants), so `StatusError` carries that
`Nat`. -/
inductive IppError where
  | HttpError : IppError
  | IOError : IppError
  | RequestError (msg : List Nat) : IppError
  | AttributeError (msg : List Nat) : IppError
  | StatusError (code : Nat) : IppError
  | TagError (tag : Nat) : IppError

/-- Modelled from the spec: the `server-error-internal-error` status code
(0x0500 per RFC 8011); `consts/statuscode.rs`, which declares
`StatusCode::ServerErrorInternalError`, is not under `src/`. -/
def SERVER_ERROR_INTERNAL_ERROR : Nat := 0x0500

/-- `IPP_VERSION` of `src/lib.rs`. -/
def IPP_VERSION : Nat := 0x0101

/-- `IppHeader` of `src/lib.rs`: version, operation/status, request id. -/
structure IppHeader where
  version : Nat
  operation_status : Nat
  request_id : Nat

/-- `IppHeader::new` of `src/lib.rs`. -/
def IppHeader.new (version status request_id : Nat) : IppHeader :=
  ⟨version, status, request_id⟩

/-- `IppHeader::write` of `src/lib.rs`: version then operation/status as
2-byte big-endian, then request id as 4-byte big-endian, returning `Ok(8)`.
The result is the emitted byte list plus the returned count. -/
def IppHeader.write (h : IppHeader) : List Nat × Nat :=
  (be2 h.version ++ be2 h.operation_status ++ be4 h.request_id, 8)

/-- `IppHeader::from_reader` of `src/lib.rs`: two big-endian `u16` reads
then a big-endian `u32` read; a short read is an I/O error.  Returns the
header and the unconsumed rest of the stream. -/
def IppHeader.from_reader (bs : List Nat) :
    Except IppError (IppHeader × List Nat) :=
  match bs with
  | a :: b :: c :: d :: e :: f :: g :: h :: rest =>
    .ok (IppHeader.new (a * 256 + b) (c * 256 + d)
      (e * 16777216 + f * 65536 + g * 256 + h), rest)
  | _ => .error .IOError

/-- `ReadIppExt::read_vec` of `src/lib.rs`: reads exactly `len` bytes
(`read_exact`); a short stream is an I/O error. -/
def read_vec (stream : List Nat) (len : Nat) : Except IppError (List Nat) :=
  if len ≤ stream.length then .ok (stream.take len) else .error .IOError

/-- `ReadIppExt::read_string` of `src/lib.rs`: `read_vec` followed by
`String::from_utf8_lossy(..).to_string()` — the result is the code-point
list of the produced string; invalid UTF-8 is substituted, never
rejected. -/
def read_string (stream : List Nat) (len : Nat) : Except IppError (List Nat) :=
  match read_vec stream len with
  | .error e => .error e
  | .ok bs => .ok (utf8Lossy bs)

/-- `IppClient::send` of `src/client.rs`, as a function of the result of
`send_request` (the transport exchange and response parse): on a decoded
response, an `operation_status` above 3 becomes `Err(StatusError(..))` via
`StatusCode::from_u16(..).unwrap_or(ServerErrorInternalError)`, otherwise
the response's attribute collection is returned; a `send_request` error is
passed through unchanged.  `from_u16` is a parameter because
`consts/statuscode.rs` is not under `src/`. -/
def IppClient.send (fromU16 : Nat → Option Nat)
    (resp : Except IppError (IppHeader × IppAttributeList)) :
    Except IppError IppAttributeList :=
  match resp with
  | .ok r =>
    if 3 < r.1.operation_status then
      .error (.StatusError ((fromU16 r.1.operation_status).getD
        SERVER_ERROR_INTERNAL_ERROR))
    else .ok r.2
  | .error e => .error e

/-- A parsed URI as the client manipulates it through `hyper::Url`: its
scheme string, its explicit port if any, and the untouched remainder
(host, path, ...).  `set_scheme`/`set_port` are the corresponding field
updates, `port()` returns the explicit port. -/
structure Url where
  scheme : List Nat
  port : Option Nat
  rest : List Nat

/-- The URI normalization performed by `IppClient::send_request` of
`src/client.rs` before issuing the HTTP request: when the scheme is
`"ipp"` it is rewritten to `"http"` and, if no port is present, the port
is set to 631; any other scheme is left alone. -/
def sendRequestUrl (u : Url) : Url :=
  if u.scheme = [105, 112, 112] then
    { u with
      scheme := [104, 116, 116, 112],
      port := if u.port = none then some 631 else u.port }
  else u

/-- `OPERATION_ATTRIBUTES_TAG` (0x01).  Modelled from the spec's delimiter
table (section 6); `consts/tag.rs` is not under `src/`. -/
def OPERATION_ATTRIBUTES_TAG : Nat := 1

/-- Modelled from the spec: the `attributes-charset` attribute name
(section 8); `consts/attribute.rs` is not under `src/`. -/
def ATTRIBUTES_CHARSET : List Nat :=
  [97, 116, 116, 114, 105, 98, 117, 116, 101, 115, 45, 99, 104, 97, 114,
   115, 101, 116]

/-- Modelled from the spec: the `attributes-natural-language` attribute
name (section 8); `consts/attribute.rs` is not under `src/`. -/
def ATTRIBUTES_NATURAL_LANGUAGE : List Nat :=
  [97, 116, 116, 114, 105, 98, 117, 116, 101, 115, 45, 110, 97, 116, 117,
   114, 97, 108, 45, 108, 97, 110, 103, 117, 97, 103, 101]

/-- Modelled from the spec: the `printer-uri` attribute name (section 8);
`consts/attribute.rs` is not under `src/`. -/
def PRINTER_URI : List Nat :=
  [112, 114, 105, 110, 116, 101, 114, 45, 117, 114, 105]

/-- Rust's `str::replace(.., "http", "ipp")` as used by `IppRequest::new`:
every non-overlapping occurrence of the bytes of `"http"` is replaced,
scanning left to right. -/
def replaceHttpWithIpp : List Nat → List Nat
  | 104 :: 116 :: 116 :: 112 :: rest => 105 :: 112 :: 112 :: replaceHttpWithIpp rest
  | c :: rest => c :: replaceHttpWithIpp rest
  | [] => []

/-- `IppAttribute::new` (name + value), per the constructor calls in
`src/request.rs`. -/
def IppAttribute.new (name : List Nat) (v : IppValue) : IppAttribute :=
  ⟨name, v⟩

/-- `IppRequest` of `src/request.rs`: operation id, server URI, attribute
collection, optional payload stream (here: the bytes the stream would
yield up to EOF). -/
structure IppRequest where
  operation : Nat
  uri : List Nat
  attributes : IppAttributeList
  payload : Option (List Nat)

/-- `IppRequest::set_attribute` of `src/request.rs`. -/
def IppRequest.set_attribute (r : IppRequest) (group : Nat)
    (a : IppAttribute) : IppRequest :=
  { r with attributes := r.attributes.add group a }

/-- `IppRequest::new` of `src/request.rs`: starts from an empty collection
and inserts `attributes-charset = Charset("utf-8")`,
`attributes-natural-language = NaturalLanguage("en")` and
`printer-uri = Uri(uri.replace("http", "ipp"))`, all into the operation
attributes group, in that order. -/
def IppRequest.new (operation : Nat) (uri : List Nat) : IppRequest :=
  let r0 : IppRequest :=
    { operation := operation, uri := uri, attributes := [], payload := none }
  let r1 := r0.set_attribute OPERATION_ATTRIBUTES_TAG
    (IppAttribute.new ATTRIBUTES_CHARSET (.Charset [117, 116, 102, 45, 56]))
  let r2 := r1.set_attribute OPERATION_ATTRIBUTES_TAG
    (IppAttribute.new ATTRIBUTES_NATURAL_LANGUAGE (.NaturalLanguage [101, 110]))
  r2.set_attribute OPERATION_ATTRIBUTES_TAG
    (IppAttribute.new PRINTER_URI (.Uri (replaceHttpWithIpp uri)))

/-- `IppRequest::set_payload` of `src/request.rs`. -/
def IppRequest.set_payload (r : IppRequest) (p : List Nat) : IppRequest :=
  { r with payload := some p }

/-- `IppRequest::write` of `src/request.rs`: the 8-byte header built from
`IPP_VERSION`, the request's operation and request id 1; then the
attribute section; then, exactly when a payload is attached, `io::copy`
of the payload stream to EOF.  Returns the emitted bytes and the byte
count the function returns (header count + attribute count + copied
count). -/
def IppRequest.write (r : IppRequest) : Except CodecError (List Nat × Nat) :=
  let hw := IppHeader.write (IppHeader.new IPP_VERSION r.operation 1)
  match IppAttributeList.write r.attributes with
  | .error e => .error e
  | .ok ab =>
    match r.payload with
    | none => .ok (hw.1 ++ ab, hw.2 + ab.length)
    | some p => .ok (hw.1 ++ ab ++ p, hw.2 + ab.length + p.length)

/-- A concrete (non-`ListOf`, non-`Other`) value as produced by in-model
building (spec section 3's data-model invariants): integers fit in `i32`,
single bytes fit in `u8`, string fields are valid UTF-8, and every payload
fits the 16-bit wire length field. -/
def wfConcreteValue : IppValue → Bool
  | .Integer i => decide (-2147483648 ≤ i) && decide (i < 2147483648)
  | .Boolean _ => true
  | .Enum i => decide (-2147483648 ≤ i) && decide (i < 2147483648)
  | .RangeOfInteger lo hi =>
    decide (-2147483648 ≤ lo) && decide (lo < 2147483648) &&
    decide (-2147483648 ≤ hi) && decide (hi < 2147483648)
  | .Resolution c f u =>
    decide (-2147483648 ≤ c) && decide (c < 2147483648) &&
    decide (-2147483648 ≤ f) && decide (f < 2147483648) && decide (u < 256)
  | .DateTime y mo d h mi s ds dir oh om =>
    decide (y < 65536) && decide (mo < 256) && decide (d < 256) &&
    decide (h < 256) && decide (mi < 256) && decide (s < 256) &&
    decide (ds < 256) && decide (dir < 256) && decide (oh < 256) &&
    decide (om < 256)
  | .OctetString bs => allBytes bs && decide (bs.length < 65536)
  | .Charset s => validUtf8 s && decide (s.length < 65536)
  | .NaturalLanguage s => validUtf8 s && decide (s.length < 65536)
  | .Uri s => validUtf8 s && decide (s.length < 65536)
  | .UriScheme s => validUtf8 s && decide (s.length < 65536)
  | .Keyword s => validUtf8 s && decide (s.length < 65536)
  | .MimeMediaType s => validUtf8 s && decide (s.length < 65536)
  | .TextWithoutLanguage s => validUtf8 s && decide (s.length < 65536)
  | .NameWithoutLanguage s => validUtf8 s && decide (s.length < 65536)
  | .TextWithLanguage l t =>
    validUtf8 l && validUtf8 t && decide (l.length + t.length + 4 < 65536)
  | .NameWithLanguage l t =>
    validUtf8 l && validUtf8 t && decide (l.length + t.length + 4 < 65536)
  | .Unsupported => true
  | .Unknown => true
  | .NoValue => true
  | .Other _ _ => false
  | .ListOf _ => false

/-- A value buildable by in-model operations: either concrete, or a
multi-valued `ListOf` of at least two concrete values (the spec's `ListOf`
stands for "several same-tagged wire entries"). -/
def wfValue : IppValue → Bool
  | .ListOf vs => decide (2 ≤ vs.length) && vs.all wfConcreteValue
  | v => wfConcreteValue v

/-- A standalone attribute: nonempty valid-UTF-8 name that fits the 16-bit
name length field, and a well-formed value. -/
def wfAttr (a : IppAttribute) : Bool :=
  decide (a.name ≠ []) && validUtf8 a.name && decide (a.name.length < 65536)
    && wfValue a.value

/-- A group as stored in the collection: keyed by a delimiter tag, with
well-formed attributes. -/
def wfGroup (g : Nat × List IppAttribute) : Bool :=
  isDelimiterByte g.1 && g.2.all wfAttr

/-- A collection built purely from in-model operations. -/
def wfCollection (c : IppAttributeList) : Bool := c.all wfGroup

theorem take_len_append (xs ys : List Nat) : (xs ++ ys).take xs.length = xs :=
  List.take_left xs ys

theorem drop_len_append (xs ys : List Nat) : (xs ++ ys).drop xs.length = ys :=
  List.drop_left xs ys

theorem read2BE_be2 (n : Nat) (h : n < 65536) (r : List Nat) :
    read2BE (be2 n ++ r) = .ok (n, r) := by
  simp only [be2, List.cons_append, List.nil_append, read2BE]
  congr 1
  congr 1
  omega

theorem readN_append (xs r : List Nat) : readN xs.length (xs ++ r) = .ok (xs, r) := by
  simp [readN, take_len_append, drop_len_append, List.length_append]

theorem readEntry_build (name p : List Nat) (hn : name.length < 65536)
    (hp : p.length < 65536) (rest : List Nat) :
    readEntry (be2 name.length ++ name ++ be2 p.length ++ p ++ rest) =
      .ok (name, p, rest) := by
  have h1 : read2BE (be2 name.length ++ (name ++ be2 p.length ++ p ++ rest)) =
      .ok (name.length, name ++ be2 p.length ++ p ++ rest) :=
    read2BE_be2 _ hn _
  have h2 : readN name.length (name ++ (be2 p.length ++ p ++ rest)) =
      .ok (name, be2 p.length ++ p ++ rest) := readN_append _ _
  have h3 : read2BE (be2 p.length ++ (p ++ rest)) = .ok (p.length, p ++ rest) :=
    read2BE_be2 _ hp _
  have h4 : readN p.length (p ++ rest) = .ok (p, rest) := readN_append _ _
  simp only [List.append_assoc] at h1 h2 h3 h4
  simp only [readEntry, List.append_assoc, h1, h2, h3, h4]

theorem be4_decode (n : Nat) (h : n < 4294967296) :
    n / 16777216 % 256 * 16777216 + n / 65536 % 256 * 65536 +
      n / 256 % 256 * 256 + n % 256 = n := by omega

theorem be2_decode (n : Nat) (h : n < 65536) :
    n / 256 % 256 * 256 + n % 256 = n := by omega

theorem intToU32_lt (i : Int) : intToU32 i < 4294967296 := by
  unfold intToU32; omega

theorem u32ToInt_intToU32 (i : Int) (h1 : -2147483648 ≤ i)
    (h2 : i < 2147483648) : u32ToInt (intToU32 i) = i := by
  unfold u32ToInt intToU32; split <;> omega

theorem parsePair_build (l t : List Nat) (hl : l.length < 65536)
    (ht : t.length < 65536) (hvl : validUtf8 l = true)
    (hvt : validUtf8 t = true) :
    parsePairStrings (be2 l.length ++ l ++ be2 t.length ++ t) = .ok (l, t) := by
  have h1 := read2BE_be2 l.length hl (l ++ (be2 t.length ++ t))
  have h2 := readN_append l (be2 t.length ++ t)
  have h3 := read2BE_be2 t.length ht t
  have h4 : readN t.length t = .ok (t, []) := by simpa using readN_append t []
  simp only [List.append_assoc] at h1 h2
  simp only [parsePairStrings, List.append_assoc, h1, h2, h3, h4, hvl, hvt,
    Bool.and_self, if_true]

/-- Value-level round trip: a well-formed concrete value encodes to a
payload that fits the 16-bit length field, its tag is in the value-tag
range, and decoding tag + payload returns the value unchanged. -/
theorem rt_value (v : IppValue) (hv : wfConcreteValue v = true) :
    ∃ p, valuePayload v = .ok p ∧ p.length < 65536 ∧ 16 ≤ valueTag v ∧
      decodeValue (valueTag v) p = .ok v := by
  cases v with
  | Integer i =>
    simp only [wfConcreteValue, Bool.and_eq_true, decide_eq_true_eq] at hv
    refine ⟨_, rfl, by simp [be4], by simp [valueTag], ?_⟩
    simp only [valueTag, decodeValue, be4, if_true, reduceIte]
    rw [be4_decode _ (intToU32_lt i), u32ToInt_intToU32 i hv.1 hv.2]
  | Boolean b =>
    refine ⟨_, rfl, by simp, by simp [valueTag], ?_⟩
    cases b <;> simp [valueTag, decodeValue]
  | Enum i =>
    simp only [wfConcreteValue, Bool.and_eq_true, decide_eq_true_eq] at hv
    refine ⟨_, rfl, by simp [be4], by simp [valueTag], ?_⟩
    simp [valueTag, decodeValue, be4, u32ToInt, intToU32]
    split_ifs <;> omega
  | RangeOfInteger lo hi =>
    simp only [wfConcreteValue, Bool.and_eq_true, decide_eq_true_eq] at hv
    refine ⟨_, rfl, by simp [be4], by simp [valueTag], ?_⟩
    simp [valueTag, decodeValue, be4, u32ToInt, intToU32]
    constructor
    · split_ifs <;> omega
    · split_ifs <;> omega
  | Resolution c f u =>
    simp only [wfConcreteValue, Bool.and_eq_true, decide_eq_true_eq] at hv
    refine ⟨_, rfl, by simp [be4], by simp [valueTag], ?_⟩
    simp [valueTag, decodeValue, be4, u32ToInt, intToU32]
    constructor
    · split_ifs <;> omega
    · split_ifs <;> omega
  | DateTime y mo d h mi s ds dir oh om =>
    simp only [wfConcreteValue, Bool.and_eq_true, decide_eq_true_eq] at hv
    refine ⟨_, rfl, by simp [be2], by simp [valueTag], ?_⟩
    simp [valueTag, decodeValue, be2]
    omega
  | OctetString bs =>
    refine ⟨_, rfl, ?_, by simp [valueTag], by simp [decodeValue, valueTag]⟩
    simp only [wfConcreteValue, Bool.and_eq_true, decide_eq_true_eq] at hv
    exact hv.2
  | Charset s =>
    simp only [wfConcreteValue, Bool.and_eq_true, decide_eq_true_eq] at hv
    exact ⟨_, rfl, hv.2, by simp [valueTag],
      by simp [decodeValue, valueTag, hv.1]⟩
  | NaturalLanguage s =>
    simp only [wfConcreteValue, Bool.and_eq_true, decide_eq_true_eq] at hv
    exact ⟨_, rfl, hv.2, by simp [valueTag],
      by simp [decodeValue, valueTag, hv.1]⟩
  | Uri s =>
    simp only [wfConcreteValue, Bool.and_eq_true, decide_eq_true_eq] at hv
    exact ⟨_, rfl, hv.2, by simp [valueTag],
      by simp [decodeValue, valueTag, hv.1]⟩
  | UriScheme s =>
    simp only [wfConcreteValue, Bool.and_eq_true, decide_eq_true_eq] at hv
    exact ⟨_, rfl, hv.2, by simp [valueTag],
      by simp [decodeValue, valueTag, hv.1]⟩
  | Keyword s =>
    simp only [wfConcreteValue, Bool.and_eq_true, decide_eq_true_eq] at hv
    exact ⟨_, rfl, hv.2, by simp [valueTag],
      by simp [decodeValue, valueTag, hv.1]⟩
  | MimeMediaType s =>
    simp only [wfConcreteValue, Bool.and_eq_true, decide_eq_true_eq] at hv
    exact ⟨_, rfl, hv.2, by simp [valueTag],
      by simp [decodeValue, valueTag, hv.1]⟩
  | TextWithoutLanguage s =>
    simp only [wfConcreteValue, Bool.and_eq_true, decide_eq_true_eq] at hv
    exact ⟨_, rfl, hv.2, by simp [valueTag],
      by simp [decodeValue, valueTag, hv.1]⟩
  | NameWithoutLanguage s =>
    simp only [wfConcreteValue, Bool.and_eq_true, decide_eq_true_eq] at hv
    exact ⟨_, rfl, hv.2, by simp [valueTag],
      by simp [decodeValue, valueTag, hv.1]⟩
  | TextWithLanguage l t =>
    simp only [wfConcreteValue, Bool.and_eq_true, decide_eq_true_eq] at hv
    refine ⟨_, rfl, ?_, by simp [valueTag], ?_⟩
    · simp only [List.length_append, be2, List.length_cons, List.length_nil]
      omega
    · have h := parsePair_build l t (by omega) (by omega) hv.1.1 hv.1.2
      simp only [List.append_assoc] at h
      simp [decodeValue, valueTag, h]
  | NameWithLanguage l t =>
    simp only [wfConcreteValue, Bool.and_eq_true, decide_eq_true_eq] at hv
    refine ⟨_, rfl, ?_, by simp [valueTag], ?_⟩
    · simp only [List.length_append, be2, List.length_cons, List.length_nil]
      omega
    · have h := parsePair_build l t (by omega) (by omega) hv.1.1 hv.1.2
      simp only [List.append_assoc] at h
      simp [decodeValue, valueTag, h]
  | ListOf vs => simp [wfConcreteValue] at hv
  | Unsupported => exact ⟨_, rfl, by simp, by simp [valueTag],
      by simp [decodeValue, valueTag]⟩
  | Unknown => exact ⟨_, rfl, by simp, by simp [valueTag],
      by simp [decodeValue, valueTag]⟩
  | NoValue => exact ⟨_, rfl, by simp, by simp [valueTag],
      by simp [decodeValue, valueTag]⟩
  | Other t bs => simp [wfConcreteValue] at hv

theorem isDelimiterByte_of_ge (t : Nat) (h : 16 ≤ t) :
    isDelimiterByte t = false := by
  simp only [isDelimiterByte, Bool.or_eq_false_iff, decide_eq_false_iff_not]
  omega

theorem isDelimiterByte_ne3 (t : Nat) (h : isDelimiterByte t = true) : t ≠ 3 := by
  simp only [isDelimiterByte, Bool.or_eq_true, decide_eq_true_eq] at h
  omega

theorem parse_end (fuel : Nat) (rest : List Nat) (acc : IppAttributeList)
    (cur : Option (Nat × List IppAttribute)) :
    parseAttrs (fuel + 1) (3 :: rest) acc cur = .ok (pushCur acc cur) := by
  simp [parseAttrs]

theorem parse_delim (fuel t : Nat) (rest : List Nat) (acc : IppAttributeList)
    (cur : Option (Nat × List IppAttribute)) (h : isDelimiterByte t = true) :
    parseAttrs (fuel + 1) (t :: rest) acc cur =
      parseAttrs fuel rest (pushCur acc cur) (some (t, [])) := by
  simp [parseAttrs, h, isDelimiterByte_ne3 t h]

theorem parse_entry_step (fuel t : Nat) (name p rest : List Nat)
    (acc : IppAttributeList) (g : Nat) (as : List IppAttribute) (v : IppValue)
    (ht : 16 ≤ t) (hn : name.length < 65536) (hp : p.length < 65536)
    (hdv : decodeValue t p = .ok v) (hne : name ≠ [])
    (hvu : validUtf8 name = true) :
    parseAttrs (fuel + 1)
        (t :: (be2 name.length ++ name ++ be2 p.length ++ p ++ rest)) acc
        (some (g, as)) =
      parseAttrs fuel rest acc (some (g, as ++ [⟨name, v⟩])) := by
  have h3 : ¬t = 3 := by omega
  have hd : isDelimiterByte t = false := isDelimiterByte_of_ge t ht
  have h16 : ¬t < 16 := by omega
  have hre := readEntry_build name p hn hp rest
  simp only [parseAttrs, if_neg h3, hd, Bool.false_eq_true, if_false, if_neg h16,
    hre, hdv, if_neg hne, hvu, if_true]

theorem parse_cont_step (fuel t : Nat) (p rest : List Nat)
    (acc : IppAttributeList) (g : Nat) (as as2 : List IppAttribute)
    (v : IppValue) (ht : 16 ≤ t) (hp : p.length < 65536)
    (hdv : decodeValue t p = .ok v) (hupd : updateLast as v = .ok as2) :
    parseAttrs (fuel + 1) (t :: (be2 0 ++ be2 p.length ++ p ++ rest)) acc
        (some (g, as)) =
      parseAttrs fuel rest acc (some (g, as2)) := by
  have h3 : ¬t = 3 := by omega
  have hd : isDelimiterByte t = false := isDelimiterByte_of_ge t ht
  have h16 : ¬t < 16 := by omega
  have hre := readEntry_build [] p (by simp) hp rest
  simp only [List.length_nil, List.append_nil] at hre
  simp only [parseAttrs, if_neg h3, hd, Bool.false_eq_true, if_false, if_neg h16,
    hre, hdv, hupd]
  simp

theorem writeEntry_eq (tag : Nat) (name : List Nat) (v : IppValue)
    (p : List Nat) (hp : valuePayload v = .ok p) (hlen : p.length < 65536) :
    writeEntry tag name v =
      .ok (tag :: (be2 name.length ++ name ++ be2 p.length ++ p)) := by
  simp only [writeEntry, hp]
  rw [if_neg (by omega)]

theorem updateLast_append (done : List IppAttribute) (a : IppAttribute)
    (v : IppValue) :
    updateLast (done ++ [a]) v = .ok (done ++ [⟨a.name, foldValue a.value v⟩]) := by
  induction done with
  | nil => simp [updateLast]
  | cons d ds ih =>
    cases ds with
    | nil => simp [updateLast]
    | cons e es =>
      simp only [List.cons_append] at ih ⊢
      simp only [updateLast, ih]

theorem foldValue_concrete (u : IppValue) (hu : wfConcreteValue u = true)
    (w : IppValue) : foldValue u w = .ListOf [u, w] := by
  cases u <;> simp_all [foldValue, wfConcreteValue]

theorem foldl_foldValue_listof (ws : List IppValue) :
    ∀ cs, List.foldl foldValue (.ListOf cs) ws = .ListOf (cs ++ ws) := by
  induction ws with
  | nil => simp
  | cons w ws ih =>
    intro cs
    simp only [List.foldl_cons, foldValue, ih, List.append_assoc,
      List.singleton_append]

theorem foldl_foldValue_concrete (u : IppValue) (hu : wfConcreteValue u = true)
    (w : IppValue) (ws : List IppValue) :
    List.foldl foldValue u (w :: ws) = .ListOf (u :: w :: ws) := by
  simp only [List.foldl_cons, foldValue_concrete u hu w, foldl_foldValue_listof]
  rfl

theorem writeContinuations_cons_inv (v : IppValue) (vs : List IppValue)
    (bs : List Nat) (h : writeContinuations (v :: vs) = .ok bs) :
    ∃ e1 r, writeEntry (valueTag v) [] v = .ok e1 ∧
      writeContinuations vs = .ok r ∧ bs = e1 ++ r := by
  simp only [writeContinuations] at h
  cases hA : writeEntry (valueTag v) [] v with
  | error e => rw [hA] at h; cases h
  | ok e1 =>
    rw [hA] at h
    cases hB : writeContinuations vs with
    | error e => rw [hB] at h; cases h
    | ok r =>
      rw [hB] at h
      injection h with h2
      exact ⟨e1, r, rfl, rfl, h2.symm⟩

theorem writeAttrs_cons_inv (a : IppAttribute) (as : List IppAttribute)
    (bs : List Nat) (h : writeAttrs (a :: as) = .ok bs) :
    ∃ ab r, writeAttribute a = .ok ab ∧ writeAttrs as = .ok r ∧ bs = ab ++ r := by
  simp only [writeAttrs] at h
  cases hA : writeAttribute a with
  | error e => rw [hA] at h; cases h
  | ok ab =>
    rw [hA] at h
    cases hB : writeAttrs as with
    | error e => rw [hB] at h; cases h
    | ok r =>
      rw [hB] at h
      injection h with h2
      exact ⟨ab, r, rfl, rfl, h2.symm⟩

theorem writeGroups_cons_inv (g : Nat × List IppAttribute)
    (gs : IppAttributeList) (bs : List Nat)
    (h : writeGroups (g :: gs) = .ok bs) :
    ∃ body r, writeAttrs g.2 = .ok body ∧ writeGroups gs = .ok r ∧
      bs = (g.1 :: body) ++ r := by
  simp only [writeGroups, writeGroup] at h
  cases hA : writeAttrs g.2 with
  | error e => rw [hA] at h; cases h
  | ok body =>
    rw [hA] at h
    cases hB : writeGroups gs with
    | error e => rw [hB] at h; cases h
    | ok r =>
      rw [hB] at h
      injection h with h2
      exact ⟨body, r, rfl, rfl, h2.symm⟩

theorem parse_attr_concrete (name : List Nat) (v : IppValue)
    (hv : wfConcreteValue v = true) (hne : name ≠ [])
    (hvu : validUtf8 name = true) (hlen : name.length < 65536) (ab : List Nat)
    (hab : writeEntry (valueTag v) name v = .ok ab) :
    ∀ fuel rest acc g done, (ab ++ rest).length < fuel →
    ∃ fuel2, rest.length < fuel2 ∧
      parseAttrs fuel (ab ++ rest) acc (some (g, done)) =
        parseAttrs fuel2 rest acc (some (g, done ++ [⟨name, v⟩])) := by
  intro fuel rest acc g done hfuel
  obtain ⟨p, hp, hplen, htag, hdec⟩ := rt_value v hv
  rw [writeEntry_eq _ _ _ _ hp hplen] at hab
  injection hab with h2
  subst h2
  obtain ⟨f, rfl⟩ : ∃ f, fuel = f + 1 := ⟨fuel - 1, by omega⟩
  refine ⟨f, ?_, ?_⟩
  · simp only [List.cons_append, List.length_cons, List.length_append] at hfuel ⊢
    omega
  · simp only [List.cons_append]
    exact parse_entry_step f (valueTag v) name p rest acc g done v htag hlen
      hplen hdec hne hvu

theorem parse_cont_one (v : IppValue) (hv : wfConcreteValue v = true)
    (eb : List Nat) (heb : writeEntry (valueTag v) [] v = .ok eb)
    (as as2 : List IppAttribute) (hupd : updateLast as v = .ok as2) :
    ∀ fuel rest acc g, (eb ++ rest).length < fuel →
    ∃ fuel2, rest.length < fuel2 ∧
      parseAttrs fuel (eb ++ rest) acc (some (g, as)) =
        parseAttrs fuel2 rest acc (some (g, as2)) := by
  intro fuel rest acc g hfuel
  obtain ⟨p, hp, hplen, htag, hdec⟩ := rt_value v hv
  rw [writeEntry_eq _ _ _ _ hp hplen] at heb
  injection heb with h2
  subst h2
  obtain ⟨f, rfl⟩ : ∃ f, fuel = f + 1 := ⟨fuel - 1, by omega⟩
  refine ⟨f, ?_, ?_⟩
  · simp only [List.cons_append, List.length_cons, List.length_append] at hfuel ⊢
    omega
  · simp only [List.cons_append, List.length_nil, List.append_nil]
    exact parse_cont_step f (valueTag v) p rest acc g as as2 v htag hplen hdec hupd

theorem parse_conts_seg (ws : List IppValue) :
    ws.all wfConcreteValue = true →
    ∀ cbs, writeContinuations ws = .ok cbs →
    ∀ fuel rest acc g done nm u, (cbs ++ rest).length < fuel →
    ∃ fuel2, rest.length < fuel2 ∧
      parseAttrs fuel (cbs ++ rest) acc (some (g, done ++ [⟨nm, u⟩])) =
        parseAttrs fuel2 rest acc
          (some (g, done ++ [⟨nm, List.foldl foldValue u ws⟩])) := by
  induction ws with
  | nil =>
    intro _ cbs hcbs fuel rest acc g done nm u hfuel
    simp only [writeContinuations] at hcbs
    injection hcbs with h2
    subst h2
    exact ⟨fuel, by simpa using hfuel, by simp⟩
  | cons w ws ih =>
    intro hws cbs hcbs fuel rest acc g done nm u hfuel
    simp only [List.all_cons, Bool.and_eq_true] at hws
    obtain ⟨e1, r, he1, hr, rfl⟩ := writeContinuations_cons_inv w ws cbs hcbs
    have hupd := updateLast_append done ⟨nm, u⟩ w
    obtain ⟨f1, hf1, heq1⟩ := parse_cont_one w hws.1 e1 he1 (done ++ [⟨nm, u⟩])
      _ hupd fuel (r ++ rest) acc g
      (by simp only [List.length_append] at hfuel ⊢; omega)
    obtain ⟨f2, hf2, heq2⟩ := ih hws.2 r hr f1 rest acc g done nm
      (foldValue u w) hf1
    refine ⟨f2, hf2, ?_⟩
    calc parseAttrs fuel (e1 ++ r ++ rest) acc (some (g, done ++ [⟨nm, u⟩]))
        = parseAttrs fuel (e1 ++ (r ++ rest)) acc (some (g, done ++ [⟨nm, u⟩])) := by
          rw [List.append_assoc]
      _ = parseAttrs f1 (r ++ rest) acc
            (some (g, done ++ [⟨nm, foldValue u w⟩])) := heq1
      _ = parseAttrs f2 rest acc
            (some (g, done ++ [⟨nm, List.foldl foldValue (foldValue u w) ws⟩])) :=
          heq2
      _ = parseAttrs f2 rest acc
            (some (g, done ++ [⟨nm, List.foldl foldValue u (w :: ws)⟩])) := by
          rw [List.foldl_cons]

theorem parse_attr_seg (a : IppAttribute) (ha : wfAttr a = true) (ab : List Nat)
    (hab : writeAttribute a = .ok ab) :
    ∀ fuel rest acc g done, (ab ++ rest).length < fuel →
    ∃ fuel2, rest.length < fuel2 ∧
      parseAttrs fuel (ab ++ rest) acc (some (g, done)) =
        parseAttrs fuel2 rest acc (some (g, done ++ [a])) := by
  obtain ⟨name, value⟩ := a
  simp only [wfAttr, Bool.and_eq_true, decide_eq_true_eq] at ha
  obtain ⟨⟨⟨hne, hvu⟩, hlen⟩, hwv⟩ := ha
  cases value with
  | ListOf vs =>
    simp only [wfValue, Bool.and_eq_true, decide_eq_true_eq] at hwv
    obtain ⟨hlen2, hallc⟩ := hwv
    cases vs with
    | nil => simp at hlen2
    | cons v ws =>
      cases ws with
      | nil => simp at hlen2
      | cons w ws2 =>
        simp only [List.all_cons, Bool.and_eq_true] at hallc
        simp only [writeAttribute] at hab
        cases hE : writeEntry (valueTag v) name v with
        | error e => rw [hE] at hab; cases hab
        | ok e1 =>
          rw [hE] at hab
          cases hC : writeContinuations (w :: ws2) with
          | error e => rw [hC] at hab; cases hab
          | ok cbs =>
            rw [hC] at hab
            injection hab with h2
            subst h2
            intro fuel rest acc g done hfuel
            obtain ⟨f1, hf1, heq1⟩ := parse_attr_concrete name v hallc.1 hne
              hvu hlen e1 hE fuel (cbs ++ rest) acc g done
              (by simp only [List.length_append] at hfuel ⊢; omega)
            obtain ⟨f2, hf2, heq2⟩ := parse_conts_seg (w :: ws2)
              (by simp only [List.all_cons, Bool.and_eq_true]
                  exact ⟨hallc.2.1, hallc.2.2⟩)
              cbs hC f1 rest acc g done name v hf1
            refine ⟨f2, hf2, ?_⟩
            calc parseAttrs fuel (e1 ++ cbs ++ rest) acc (some (g, done))
                = parseAttrs fuel (e1 ++ (cbs ++ rest)) acc (some (g, done)) := by
                  rw [List.append_assoc]
              _ = parseAttrs f1 (cbs ++ rest) acc
                    (some (g, done ++ [⟨name, v⟩])) := heq1
              _ = parseAttrs f2 rest acc
                    (some (g, done ++ [⟨name,
                      List.foldl foldValue v (w :: ws2)⟩])) := heq2
              _ = parseAttrs f2 rest acc
                    (some (g, done ++ [⟨name, .ListOf (v :: w :: ws2)⟩])) := by
                  rw [foldl_foldValue_concrete v hallc.1]
  | Integer i => exact parse_attr_concrete name _ (by simpa only [wfValue] using hwv) hne hvu hlen ab hab
  | Boolean b => exact parse_attr_concrete name _ (by simpa only [wfValue] using hwv) hne hvu hlen ab hab
  | Enum i => exact parse_attr_concrete name _ (by simpa only [wfValue] using hwv) hne hvu hlen ab hab
  | RangeOfInteger lo hi => exact parse_attr_concrete name _ (by simpa only [wfValue] using hwv) hne hvu hlen ab hab
  | Resolution c f u => exact parse_attr_concrete name _ (by simpa only [wfValue] using hwv) hne hvu hlen ab hab
  | DateTime y mo d h mi s ds dir oh om =>
    exact parse_attr_concrete name _ (by simpa only [wfValue] using hwv) hne hvu hlen ab hab
  | OctetString bs => exact parse_attr_concrete name _ (by simpa only [wfValue] using hwv) hne hvu hlen ab hab
  | Charset s => exact parse_attr_concrete name _ (by simpa only [wfValue] using hwv) hne hvu hlen ab hab
  | NaturalLanguage s => exact parse_attr_concrete name _ (by simpa only [wfValue] using hwv) hne hvu hlen ab hab
  | Uri s => exact parse_attr_concrete name _ (by simpa only [wfValue] using hwv) hne hvu hlen ab hab
  | UriScheme s => exact parse_attr_concrete name _ (by simpa only [wfValue] using hwv) hne hvu hlen ab hab
  | Keyword s => exact parse_attr_concrete name _ (by simpa only [wfValue] using hwv) hne hvu hlen ab hab
  | MimeMediaType s => exact parse_attr_concrete name _ (by simpa only [wfValue] using hwv) hne hvu hlen ab hab
  | TextWithoutLanguage s => exact parse_attr_concrete name _ (by simpa only [wfValue] using hwv) hne hvu hlen ab hab
  | NameWithoutLanguage s => exact parse_attr_concrete name _ (by simpa only [wfValue] using hwv) hne hvu hlen ab hab
  | TextWithLanguage l t => exact parse_attr_concrete name _ (by simpa only [wfValue] using hwv) hne hvu hlen ab hab
  | NameWithLanguage l t => exact parse_attr_concrete name _ (by simpa only [wfValue] using hwv) hne hvu hlen ab hab
  | Unsupported => exact parse_attr_concrete name _ (by simpa only [wfValue] using hwv) hne hvu hlen ab hab
  | Unknown => exact parse_attr_concrete name _ (by simpa only [wfValue] using hwv) hne hvu hlen ab hab
  | NoValue => exact parse_attr_concrete name _ (by simpa only [wfValue] using hwv) hne hvu hlen ab hab
  | Other t bs => simp [wfValue, wfConcreteValue] at hwv

theorem parse_attrs_seg (as : List IppAttribute) :
    as.all wfAttr = true →
    ∀ bs, writeAttrs as = .ok bs →
    ∀ fuel rest acc g done, (bs ++ rest).length < fuel →
    ∃ fuel2, rest.length < fuel2 ∧
      parseAttrs fuel (bs ++ rest) acc (some (g, done)) =
        parseAttrs fuel2 rest acc (some (g, done ++ as)) := by
  induction as with
  | nil =>
    intro _ bs hbs fuel rest acc g done hfuel
    simp only [writeAttrs] at hbs
    injection hbs with h2
    subst h2
    exact ⟨fuel, by simpa using hfuel, by simp⟩
  | cons a as ih =>
    intro hwf bs hbs fuel rest acc g done hfuel
    simp only [List.all_cons, Bool.and_eq_true] at hwf
    obtain ⟨ab, r, hA, hR, rfl⟩ := writeAttrs_cons_inv a as bs hbs
    obtain ⟨f1, hf1, heq1⟩ := parse_attr_seg a hwf.1 ab hA fuel (r ++ rest)
      acc g done (by simp only [List.length_append] at hfuel ⊢; omega)
    obtain ⟨f2, hf2, heq2⟩ := ih hwf.2 r hR f1 rest acc g (done ++ [a]) hf1
    refine ⟨f2, hf2, ?_⟩
    calc parseAttrs fuel (ab ++ r ++ rest) acc (some (g, done))
        = parseAttrs fuel (ab ++ (r ++ rest)) acc (some (g, done)) := by
          rw [List.append_assoc]
      _ = parseAttrs f1 (r ++ rest) acc (some (g, done ++ [a])) := heq1
      _ = parseAttrs f2 rest acc (some (g, done ++ [a] ++ as)) := heq2
      _ = parseAttrs f2 rest acc (some (g, done ++ (a :: as))) := by
          rw [List.append_assoc, List.singleton_append]

theorem parse_groups (gs : IppAttributeList) :
    wfCollection gs = true →
    ∀ bs, writeGroups gs = .ok bs →
    ∀ fuel rest acc cur, (bs ++ rest).length < fuel →
    ∃ fuel2 acc2 cur2, rest.length < fuel2 ∧
      parseAttrs fuel (bs ++ rest) acc cur = parseAttrs fuel2 rest acc2 cur2 ∧
      pushCur acc2 cur2 = pushCur acc cur ++ gs := by
  induction gs with
  | nil =>
    intro _ bs hbs fuel rest acc cur hfuel
    simp only [writeGroups] at hbs
    injection hbs with h2
    subst h2
    exact ⟨fuel, acc, cur, by simpa using hfuel, by simp, by simp⟩
  | cons g gs ih =>
    intro hwf bs hbs fuel rest acc cur hfuel
    simp only [wfCollection, List.all_cons, Bool.and_eq_true] at hwf
    obtain ⟨body, r, hBody, hR, rfl⟩ := writeGroups_cons_inv g gs bs hbs
    obtain ⟨f0, rfl⟩ : ∃ f0, fuel = f0 + 1 := ⟨fuel - 1, by omega⟩
    have hdel : isDelimiterByte g.1 = true := by
      simp only [wfGroup, Bool.and_eq_true] at hwf
      exact hwf.1.1
    have hstep : parseAttrs (f0 + 1) ((g.1 :: body) ++ r ++ rest) acc cur =
        parseAttrs f0 (body ++ (r ++ rest)) (pushCur acc cur) (some (g.1, [])) := by
      have := parse_delim f0 g.1 (body ++ (r ++ rest)) acc cur hdel
      simpa [List.append_assoc] using this
    have hwfas : g.2.all wfAttr = true := by
      simp only [wfGroup, Bool.and_eq_true] at hwf
      exact hwf.1.2
    obtain ⟨f1, hf1, heq1⟩ := parse_attrs_seg g.2 hwfas body hBody f0
      (r ++ rest) (pushCur acc cur) g.1 []
      (by simp only [List.length_append, List.length_cons] at hfuel ⊢; omega)
    obtain ⟨f2, acc2, cur2, hf2, heq2, hpush⟩ := ih hwf.2 r hR f1 rest
      (pushCur acc cur) (some (g.1, [] ++ g.2)) hf1
    refine ⟨f2, acc2, cur2, hf2, ?_, ?_⟩
    · calc parseAttrs (f0 + 1) ((g.1 :: body) ++ r ++ rest) acc cur
          = parseAttrs f0 (body ++ (r ++ rest)) (pushCur acc cur)
              (some (g.1, [])) := hstep
        _ = parseAttrs f1 (r ++ rest) (pushCur acc cur)
              (some (g.1, [] ++ g.2)) := heq1
        _ = parseAttrs f2 rest acc2 cur2 := heq2
    · rw [hpush]
      simp only [List.nil_append, pushCur, List.append_assoc,
        List.singleton_append]

theorem writeEntry_ok (v : IppValue) (hv : wfConcreteValue v = true)
    (name : List Nat) : ∃ eb, writeEntry (valueTag v) name v = .ok eb := by
  obtain ⟨p, hp, hplen, _, _⟩ := rt_value v hv
  exact ⟨_, writeEntry_eq _ _ _ _ hp hplen⟩

theorem writeContinuations_ok (ws : List IppValue)
    (h : ws.all wfConcreteValue = true) :
    ∃ bs, writeContinuations ws = .ok bs := by
  induction ws with
  | nil => exact ⟨[], rfl⟩
  | cons w ws ih =>
    simp only [List.all_cons, Bool.and_eq_true] at h
    obtain ⟨e1, he1⟩ := writeEntry_ok w h.1 []
    obtain ⟨r, hr⟩ := ih h.2
    exact ⟨e1 ++ r, by simp [writeContinuations, he1, hr]⟩

theorem writeAttribute_ok (a : IppAttribute) (ha : wfAttr a = true) :
    ∃ ab, writeAttribute a = .ok ab := by
  obtain ⟨name, value⟩ := a
  simp only [wfAttr, Bool.and_eq_true, decide_eq_true_eq] at ha
  obtain ⟨⟨⟨hne, hvu⟩, hlen⟩, hwv⟩ := ha
  cases value with
  | ListOf vs =>
    simp only [wfValue, Bool.and_eq_true, decide_eq_true_eq] at hwv
    obtain ⟨hlen2, hallc⟩ := hwv
    cases vs with
    | nil => simp at hlen2
    | cons v ws =>
      simp only [List.all_cons, Bool.and_eq_true] at hallc
      obtain ⟨e1, he1⟩ := writeEntry_ok v hallc.1 name
      obtain ⟨r, hr⟩ := writeContinuations_ok ws hallc.2
      exact ⟨e1 ++ r, by simp [writeAttribute, he1, hr]⟩
  | Integer i => exact writeEntry_ok _ (by simpa only [wfValue] using hwv) name
  | Boolean b => exact writeEntry_ok _ (by simpa only [wfValue] using hwv) name
  | Enum i => exact writeEntry_ok _ (by simpa only [wfValue] using hwv) name
  | RangeOfInteger lo hi =>
    exact writeEntry_ok _ (by simpa only [wfValue] using hwv) name
  | Resolution c f u =>
    exact writeEntry_ok _ (by simpa only [wfValue] using hwv) name
  | DateTime y mo d h mi s ds dir oh om =>
    exact writeEntry_ok _ (by simpa only [wfValue] using hwv) name
  | OctetString bs => exact writeEntry_ok _ (by simpa only [wfValue] using hwv) name
  | Charset s => exact writeEntry_ok _ (by simpa only [wfValue] using hwv) name
  | NaturalLanguage s =>
    exact writeEntry_ok _ (by simpa only [wfValue] using hwv) name
  | Uri s => exact writeEntry_ok _ (by simpa only [wfValue] using hwv) name
  | UriScheme s => exact writeEntry_ok _ (by simpa only [wfValue] using hwv) name
  | Keyword s => exact writeEntry_ok _ (by simpa only [wfValue] using hwv) name
  | MimeMediaType s =>
    exact writeEntry_ok _ (by simpa only [wfValue] using hwv) name
  | TextWithoutLanguage s =>
    exact writeEntry_ok _ (by simpa only [wfValue] using hwv) name
  | NameWithoutLanguage s =>
    exact writeEntry_ok _ (by simpa only [wfValue] using hwv) name
  | TextWithLanguage l t =>
    exact writeEntry_ok _ (by simpa only [wfValue] using hwv) name
  | NameWithLanguage l t =>
    exact writeEntry_ok _ (by simpa only [wfValue] using hwv) name
  | Unsupported => exact writeEntry_ok _ (by simpa only [wfValue] using hwv) name
  | Unknown => exact writeEntry_ok _ (by simpa only [wfValue] using hwv) name
  | NoValue => exact writeEntry_ok _ (by simpa only [wfValue] using hwv) name
  | Other t bs => simp [wfValue, wfConcreteValue] at hwv

theorem writeAttrs_ok (as : List IppAttribute) (h : as.all wfAttr = true) :
    ∃ bs, writeAttrs as = .ok bs := by
  induction as with
  | nil => exact ⟨[], rfl⟩
  | cons a as ih =>
    simp only [List.all_cons, Bool.and_eq_true] at h
    obtain ⟨ab, hab⟩ := writeAttribute_ok a h.1
    obtain ⟨r, hr⟩ := ih h.2
    exact ⟨ab ++ r, by simp [writeAttrs, hab, hr]⟩

theorem writeGroups_ok (gs : IppAttributeList) (h : wfCollection gs = true) :
    ∃ bs, writeGroups gs = .ok bs := by
  induction gs with
  | nil => exact ⟨[], rfl⟩
  | cons g gs ih =>
    simp only [wfCollection, List.all_cons, Bool.and_eq_true] at h
    have hwfas : g.2.all wfAttr = true := by
      simp only [wfGroup, Bool.and_eq_true] at h
      exact h.1.2
    obtain ⟨body, hbody⟩ := writeAttrs_ok g.2 hwfas
    obtain ⟨r, hr⟩ := ih h.2
    exact ⟨(g.1 :: body) ++ r, by simp [writeGroups, writeGroup, hbody, hr]⟩

/-- C1: for every attribute collection built purely from in-model
operations — well-formed per the spec's data model: delimiter-tagged
groups, standalone attributes with nonempty valid-UTF-8 names, values in
range with every payload below the 16-bit limit, multi-valued `ListOf`
values holding at least two concrete values, and no raw-byte `Other`
escape — encoding succeeds and decoding the encoded bytes returns a
collection equal to the original, preserving group order, attribute
order, and multi-valued folding. -/
theorem C1_encode_decode_roundtrip (A : IppAttributeList)
    (h : wfCollection A = true) :
    ∃ bs, IppAttributeList.write A = .ok bs ∧ decodeAttrs bs = .ok A := by
  obtain ⟨gbs, hgbs⟩ := writeGroups_ok A h
  refine ⟨gbs ++ [3], by simp [IppAttributeList.write, hgbs], ?_⟩
  unfold decodeAttrs
  obtain ⟨f2, acc2, cur2, hf2, heq, hpush⟩ := parse_groups A h gbs hgbs
    ((gbs ++ [3]).length + 1) [3] [] none (by omega)
  rw [heq]
  obtain ⟨f3, rfl⟩ : ∃ f3, f2 = f3 + 1 := ⟨f2 - 1, by omega⟩
  rw [parse_end, hpush]
  simp [pushCur]

/-- A sample collection used to instantiate the round-trip law: two groups,
a plain attribute, and a two-element multi-valued attribute. -/
def sampleCollection : IppAttributeList :=
  [(1, [⟨[97], .Keyword [97]⟩, ⟨[98], .ListOf [.Keyword [99], .Keyword [100]]⟩]),
   (4, [⟨[99], .Integer 7⟩])]

theorem C1_encode_decode_roundtrip_witness :
    wfCollection sampleCollection = true ∧
    ∃ bs, IppAttributeList.write sampleCollection = .ok bs ∧
      decodeAttrs bs = .ok sampleCollection :=
  ⟨by decide, C1_encode_decode_roundtrip sampleCollection (by decide)⟩

/-- C2: `IppHeader::write` emits exactly 8 bytes — version, then
operation/status, then request id, big-endian in that fixed order — and
returns the count 8; `IppHeader::from_reader` applied to those bytes
(followed by anything) recovers a header equal to the original and leaves
the rest of the stream unconsumed. -/
theorem C2_header_write_read (h : IppHeader) (rest : List Nat)
    (hv : h.version < 65536) (hs : h.operation_status < 65536)
    (hr : h.request_id < 4294967296) :
    (IppHeader.write h).1.length = 8 ∧ (IppHeader.write h).2 = 8 ∧
      IppHeader.from_reader ((IppHeader.write h).1 ++ rest) = .ok (h, rest) := by
  obtain ⟨v, s, r⟩ := h
  refine ⟨by simp [IppHeader.write, be2, be4], rfl, ?_⟩
  simp only [IppHeader.write, IppHeader.new, be2, be4, List.cons_append,
    List.nil_append, IppHeader.from_reader, Except.ok.injEq, Prod.mk.injEq,
    IppHeader.mk.injEq]
  refine ⟨⟨?_, ?_, ?_⟩, trivial⟩ <;> simp only at hv hs hr <;> omega

theorem C2_header_write_read_witness :
    (257 < 65536 ∧ 2 < 65536 ∧ 1 < 4294967296) ∧
    ((IppHeader.write ⟨257, 2, 1⟩).1.length = 8 ∧
      (IppHeader.write ⟨257, 2, 1⟩).2 = 8 ∧
      IppHeader.from_reader ((IppHeader.write ⟨257, 2, 1⟩).1 ++ [7]) =
        .ok (⟨257, 2, 1⟩, [7])) :=
  ⟨⟨by decide, by decide, by decide⟩,
    C2_header_write_read ⟨257, 2, 1⟩ [7] (by decide) (by decide) (by decide)⟩

/-- C3 counterexample: the byte 0xFF is not valid UTF-8, yet
`ReadIppExt::read_string` succeeds on it, substituting U+FFFD (65533)
via `String::from_utf8_lossy` — it does not fail with any error, and the
`IppError` enum of `src/lib.rs` has no `MalformedValue` variant at all. -/
theorem C3_read_string_not_failing_counterexample :
    validUtf8 [255] = false ∧ read_string [255] 1 = .ok [65533] :=
  ⟨rfl, rfl⟩

/-- C3 (amended): when reading a string payload from the wire,
`read_string` never fails on invalid UTF-8 — whenever the stream holds
enough bytes it succeeds with the `from_utf8_lossy` conversion of exactly
the requested bytes (invalid sequences replaced by U+FFFD, no decode
error); its only failure is the I/O short-read error. -/
theorem C3_read_string_lossy (stream : List Nat) (len : Nat) :
    (len ≤ stream.length →
      read_string stream len = .ok (utf8Lossy (stream.take len))) ∧
    (stream.length < len → read_string stream len = .error .IOError) := by
  constructor
  · intro h
    simp only [read_string, read_vec, if_pos h]
  · intro h
    simp only [read_string, read_vec]
    rw [if_neg (by omega)]

theorem C3_read_string_lossy_witness :
    1 ≤ ([255] : List Nat).length ∧
      read_string [255] 1 = .ok (utf8Lossy (([255] : List Nat).take 1)) :=
  ⟨by decide, (C3_read_string_lossy [255] 1).1 (by decide)⟩

/-- The string-payload values of the model: the variants whose payload is
a bare UTF-8 string (2-byte length + bytes on the wire). -/
def stringPayloadValue : IppValue → Option (List Nat)
  | .Charset s => some s
  | .NaturalLanguage s => some s
  | .Uri s => some s
  | .UriScheme s => some s
  | .Keyword s => some s
  | .MimeMediaType s => some s
  | .TextWithoutLanguage s => some s
  | .NameWithoutLanguage s => some s
  | _ => none

/-- C4: encoding a string value succeeds whenever its payload is at most
65535 bytes — emitting the full untruncated payload after the 2-byte
length — and fails with `OversizedPayload` from 65536 bytes on; the
encoder never truncates. -/
theorem C4_string_length_boundary (v : IppValue) (name s : List Nat)
    (hs : stringPayloadValue v = some s) :
    (s.length ≤ 65535 →
      writeAttribute ⟨name, v⟩ =
        .ok (valueTag v :: (be2 name.length ++ name ++ be2 s.length ++ s))) ∧
    (65536 ≤ s.length → writeAttribute ⟨name, v⟩ = .error .OversizedPayload) := by
  cases v <;> first
    | (simp only [stringPayloadValue] at hs
       exact Option.noConfusion hs)
    | (rename_i s2
       simp only [stringPayloadValue, Option.some.injEq] at hs
       subst hs
       refine ⟨fun hle => ?_, fun hge => ?_⟩
       · simp only [writeAttribute, writeEntry, valuePayload, valueTag]
         rw [if_neg (by omega)]
       · simp only [writeAttribute, writeEntry, valuePayload]
         rw [if_pos hge])

theorem C4_string_length_boundary_witness :
    (stringPayloadValue (.Charset [97]) = some [97] ∧
      ([97] : List Nat).length ≤ 65535 ∧
      writeAttribute ⟨[98], .Charset [97]⟩ =
        .ok (valueTag (.Charset [97]) ::
          (be2 ([98] : List Nat).length ++ [98] ++
            be2 ([97] : List Nat).length ++ [97]))) ∧
    (stringPayloadValue (.Charset (List.replicate 65536 97)) =
        some (List.replicate 65536 97) ∧
      65536 ≤ (List.replicate 65536 97).length ∧
      writeAttribute ⟨[98], .Charset (List.replicate 65536 97)⟩ =
        .error .OversizedPayload) :=
  ⟨⟨rfl, by decide,
    (C4_string_length_boundary (.Charset [97]) [98] [97] rfl).1 (by decide)⟩,
   ⟨rfl, by rw [List.length_replicate],
    (C4_string_length_boundary (.Charset (List.replicate 65536 97)) [98]
      (List.replicate 65536 97) rfl).2 (by rw [List.length_replicate])⟩⟩

/-- C5: a complete value-tag attribute entry appearing before any
delimiter tag has established a current group makes decoding fail with
`UnexpectedValueOutsideGroup`; the parse returns that error and no
collection, so no attribute is even partially inserted. -/
theorem C5_value_before_group (t : Nat) (name p rest : List Nat)
    (ht : 16 ≤ t) (hn : name.length < 65536) (hp : p.length < 65536) :
    decodeAttrs (t :: (be2 name.length ++ name ++ be2 p.length ++ p ++ rest)) =
      .error .UnexpectedValueOutsideGroup := by
  unfold decodeAttrs
  have h3 : ¬t = 3 := by omega
  have hd : isDelimiterByte t = false := isDelimiterByte_of_ge t ht
  have h16 : ¬t < 16 := by omega
  have hre := readEntry_build name p hn hp rest
  simp only [parseAttrs, if_neg h3, hd, Bool.false_eq_true, if_false,
    if_neg h16, hre]

theorem C5_value_before_group_witness :
    (16 ≤ 71 ∧ ([97] : List Nat).length < 65536 ∧
      ([117] : List Nat).length < 65536) ∧
    decodeAttrs (71 :: (be2 ([97] : List Nat).length ++ [97] ++
        be2 ([117] : List Nat).length ++ [117] ++ [])) =
      .error .UnexpectedValueOutsideGroup :=
  ⟨⟨by decide, by decide, by decide⟩,
    C5_value_before_group 71 [97] [117] [] (by decide) (by decide) (by decide)⟩

/-- C6: on a successfully decoded response envelope, `IppClient::send`
returns `Err(StatusError(code))` exactly when the header's
`operation_status` is greater than 3; the code is
`from_u16(status).unwrap_or(ServerErrorInternalError)` — the status itself
when the mapping knows it, `server-error-internal-error` otherwise — and
for a status of at most 3 the attribute collection is returned.  A
`send_request` failure is passed through unchanged, so a decode failure is
never turned into a `StatusError`. -/
theorem C6_send_status_error (fromU16 : Nat → Option Nat) (hdr : IppHeader)
    (attrs : IppAttributeList) :
    ((∃ c, IppClient.send fromU16 (.ok (hdr, attrs)) =
        .error (.StatusError c)) ↔ 3 < hdr.operation_status) ∧
    (3 < hdr.operation_status →
      IppClient.send fromU16 (.ok (hdr, attrs)) =
        .error (.StatusError ((fromU16 hdr.operation_status).getD
          SERVER_ERROR_INTERNAL_ERROR))) ∧
    (hdr.operation_status ≤ 3 →
      IppClient.send fromU16 (.ok (hdr, attrs)) = .ok attrs) ∧
    (∀ e, IppClient.send fromU16 (.error e) = .error e) ∧
    ((∀ n c, fromU16 n = some c → c = n) → 3 < hdr.operation_status →
      ∀ c, IppClient.send fromU16 (.ok (hdr, attrs)) =
          .error (.StatusError c) →
        c = hdr.operation_status ∨ c = SERVER_ERROR_INTERNAL_ERROR) := by
  refine ⟨⟨?_, ?_⟩, ?_, ?_, fun e => rfl, ?_⟩
  · rintro ⟨c, hc⟩
    by_contra hlt
    simp only [IppClient.send, if_neg hlt] at hc
    cases hc
  · intro h
    exact ⟨(fromU16 hdr.operation_status).getD SERVER_ERROR_INTERNAL_ERROR,
      by simp only [IppClient.send, if_pos h]⟩
  · intro h
    simp only [IppClient.send, if_pos h]
  · intro h
    simp only [IppClient.send, if_neg (by omega : ¬3 < hdr.operation_status)]
  · intro hid h c hc
    simp only [IppClient.send, if_pos h] at hc
    cases hfc : fromU16 hdr.operation_status with
    | none =>
      rw [hfc] at hc
      injection hc with h2
      injection h2 with h3
      exact Or.inr h3.symm
    | some k =>
      rw [hfc] at hc
      injection hc with h2
      injection h2 with h3
      exact Or.inl (by rw [← h3]; exact hid _ _ hfc)

theorem C6_send_status_error_witness :
    ((∃ c, IppClient.send (fun n => if n = 5 then some 5 else none)
        (.ok (⟨257, 5, 1⟩, [])) = .error (.StatusError c)) ↔ 3 < 5) ∧
    (3 < 5 → IppClient.send (fun n => if n = 5 then some 5 else none)
        (.ok (⟨257, 5, 1⟩, [])) =
      .error (.StatusError (((fun n => if n = 5 then some 5 else none) 5).getD
        SERVER_ERROR_INTERNAL_ERROR))) ∧
    (5 ≤ 3 → IppClient.send (fun n => if n = 5 then some 5 else none)
        (.ok (⟨257, 5, 1⟩, [])) = .ok []) ∧
    (∀ e, IppClient.send (fun n => if n = 5 then some 5 else none)
        (.error e) = .error e) ∧
    ((∀ n c, (fun n => if n = 5 then some 5 else none) n = some c → c = n) →
      3 < 5 → ∀ c, IppClient.send (fun n => if n = 5 then some 5 else none)
          (.ok (⟨257, 5, 1⟩, [])) = .error (.StatusError c) →
        c = 5 ∨ c = SERVER_ERROR_INTERNAL_ERROR) :=
  C6_send_status_error (fun n => if n = 5 then some 5 else none) ⟨257, 5, 1⟩ []

/-- C7: `IppRequest::write` emits the 8-byte header, then the attribute
section, then — exactly when a payload is attached — the payload bytes
verbatim; the returned count equals the total number of emitted bytes,
8 plus the attribute bytes plus the payload bytes. -/
theorem C7_request_write_layout (r : IppRequest) (ab : List Nat)
    (hab : IppAttributeList.write r.attributes = .ok ab) :
    ∃ bs n, IppRequest.write r = .ok (bs, n) ∧
      bs = (IppHeader.write (IppHeader.new IPP_VERSION r.operation 1)).1 ++
        ab ++ r.payload.getD [] ∧
      n = bs.length ∧
      n = 8 + ab.length + (r.payload.getD []).length ∧
      (r.payload = none →
        bs = (IppHeader.write (IppHeader.new IPP_VERSION r.operation 1)).1 ++ ab) := by
  cases hp : r.payload with
  | none =>
    refine ⟨(IppHeader.write (IppHeader.new IPP_VERSION r.operation 1)).1 ++ ab,
      8 + ab.length, ?_, ?_, ?_, ?_, fun _ => rfl⟩
    · simp only [IppRequest.write, hab, hp]
      rfl
    · simp
    · simp [IppHeader.write, be2, be4]
      omega
    · simp
  | some p =>
    refine ⟨(IppHeader.write (IppHeader.new IPP_VERSION r.operation 1)).1 ++
        ab ++ p, 8 + ab.length + p.length, ?_, ?_, ?_, ?_,
      fun hnone => absurd hnone (by simp [hp])⟩
    · simp only [IppRequest.write, hab, hp]
      rfl
    · simp
    · simp [IppHeader.write, be2, be4]
      omega
    · simp

theorem C7_request_write_layout_witness :
    IppAttributeList.write
        (IppRequest.mk 2 [] [] (some [9, 8])).attributes = .ok [3] ∧
    (∃ bs n, IppRequest.write ⟨2, [], [], some [9, 8]⟩ = .ok (bs, n) ∧
      bs = (IppHeader.write (IppHeader.new IPP_VERSION
        (IppRequest.mk 2 [] [] (some [9, 8])).operation 1)).1 ++ [3] ++
        (IppRequest.mk 2 [] [] (some [9, 8])).payload.getD [] ∧
      n = bs.length ∧
      n = 8 + ([3] : List Nat).length +
        ((IppRequest.mk 2 [] [] (some [9, 8])).payload.getD []).length ∧
      ((IppRequest.mk 2 [] [] (some [9, 8])).payload = none →
        bs = (IppHeader.write (IppHeader.new IPP_VERSION
          (IppRequest.mk 2 [] [] (some [9, 8])).operation 1)).1 ++ [3])) :=
  ⟨rfl, C7_request_write_layout ⟨2, [], [], some [9, 8]⟩ [3] rfl⟩

/-- C8: `IppClient::send_request` rewrites an `"ipp"` scheme to `"http"`
before issuing the HTTP request, setting the port to 631 exactly when the
URI carries no explicit port and preserving an explicit port; a URI with
any other scheme is left entirely unchanged. -/
theorem C8_send_request_uri_normalization (u : Url) :
    (u.scheme = [105, 112, 112] →
      (sendRequestUrl u).scheme = [104, 116, 116, 112] ∧
      (sendRequestUrl u).rest = u.rest ∧
      (u.port = none → (sendRequestUrl u).port = some 631) ∧
      (∀ p, u.port = some p → (sendRequestUrl u).port = some p)) ∧
    (u.scheme ≠ [105, 112, 112] → sendRequestUrl u = u) := by
  constructor
  · intro h
    refine ⟨by simp [sendRequestUrl, h], by simp [sendRequestUrl, h], ?_, ?_⟩
    · intro hp
      simp [sendRequestUrl, h, hp]
    · intro p hp
      simp [sendRequestUrl, h, hp]
  · intro h
    simp [sendRequestUrl, h]

theorem C8_send_request_uri_normalization_witness :
    (([105, 112, 112] : List Nat) = [105, 112, 112] ∧
      (sendRequestUrl ⟨[105, 112, 112], none, [104]⟩).scheme =
        [104, 116, 116, 112] ∧
      (sendRequestUrl ⟨[105, 112, 112], none, [104]⟩).port = some 631) ∧
    (([104, 116, 116, 112] : List Nat) ≠ [105, 112, 112] ∧
      sendRequestUrl ⟨[104, 116, 116, 112], none, [104]⟩ =
        ⟨[104, 116, 116, 112], none, [104]⟩) :=
  ⟨⟨rfl,
    ((C8_send_request_uri_normalization ⟨[105, 112, 112], none, [104]⟩).1
      rfl).1,
    ((C8_send_request_uri_normalization ⟨[105, 112, 112], none, [104]⟩).1
      rfl).2.2.1 rfl⟩,
   ⟨by decide,
    (C8_send_request_uri_normalization ⟨[104, 116, 116, 112], none, [104]⟩).2
      (by decide)⟩⟩

/-- C9: a request built by `IppRequest::new(operation, uri)` starts with
exactly three attributes, all in the operation-attributes group and in
insertion order: `attributes-charset = Charset("utf-8")`,
`attributes-natural-language = NaturalLanguage("en")` and
`printer-uri = Uri(uri.replace("http", "ipp"))` — so an `"https://..."`
uri yields an `"ipps://..."` printer-uri. -/
theorem C9_request_new_initial_attributes (op : Nat) (uri : List Nat) :
    (IppRequest.new op uri).attributes =
      [(OPERATION_ATTRIBUTES_TAG,
        [⟨ATTRIBUTES_CHARSET, .Charset [117, 116, 102, 45, 56]⟩,
         ⟨ATTRIBUTES_NATURAL_LANGUAGE, .NaturalLanguage [101, 110]⟩,
         ⟨PRINTER_URI, .Uri (replaceHttpWithIpp uri)⟩])] ∧
    replaceHttpWithIpp [104, 116, 116, 112, 115, 58, 47, 47] =
      [105, 112, 112, 115, 58, 47, 47] := by
  constructor
  · simp [IppRequest.new, IppRequest.set_attribute, IppAttributeList.add,
      IppAttribute.new, OPERATION_ATTRIBUTES_TAG]
  · rfl

/-- C10: whatever the operation, uri, attributes or payload, the header
serialized by `IppRequest::write` carries version 0x0101 (bytes 0-1) and
request id 1 (bytes 4-7); this interface offers no way to choose another
version or request id. -/
theorem C10_request_write_fixed_version_and_id (r : IppRequest)
    (bs : List Nat) (n : Nat) (h : IppRequest.write r = .ok (bs, n)) :
    bs.take 2 = [1, 1] ∧ (bs.drop 4).take 4 = [0, 0, 0, 1] := by
  unfold IppRequest.write at h
  cases hA : IppAttributeList.write r.attributes with
  | error e => rw [hA] at h; cases h
  | ok ab =>
    rw [hA] at h
    cases hp : r.payload with
    | none =>
      rw [hp] at h
      injection h with h2
      injection h2 with hb hn
      subst hb
      simp [IppHeader.write, IppHeader.new, IPP_VERSION, be2, be4]
    | some p =>
      rw [hp] at h
      injection h with h2
      injection h2 with hb hn
      subst hb
      simp [IppHeader.write, IppHeader.new, IPP_VERSION, be2, be4]

theorem C10_request_write_fixed_version_and_id_witness :
    IppRequest.write ⟨2, [], [], none⟩ = .ok ([1, 1, 0, 2, 0, 0, 0, 1, 3], 9) ∧
    (([1, 1, 0, 2, 0, 0, 0, 1, 3] : List Nat).take 2 = [1, 1] ∧
      (([1, 1, 0, 2, 0, 0, 0, 1, 3] : List Nat).drop 4).take 4 = [0, 0, 0, 1]) :=
  ⟨rfl, C10_request_write_fixed_version_and_id ⟨2, [], [], none⟩
    [1, 1, 0, 2, 0, 0, 0, 1, 3] 9 rfl⟩
